import Mathlib

/-!
Shallow embedding of the `sync-skills` data pipeline of the
pa-skills-marketplace repository (the Node script `scripts/sync-skills.js`),
together with theorems settling the specification claims about it.

JavaScript values that the script reads from loosely-typed JSON / YAML
sources are embedded as `Option`-typed fields (`none` = the key is absent
or not of the expected shape); JavaScript truthiness on strings is
`s ≠ ""`, on numbers `n ≠ 0`.
-/

namespace SyncSkills

/-! ### Loosely-typed metadata records

One record shape serves the three metadata sources the script consults:
the descriptor front matter (`parsed.data`), the per-entity JSON file
(`jsonData`) and the combined index entry (`indexData`).  The script only
ever reads the fields below. -/

structure MetaData where
  name : Option String := none
  description : Option String := none
  tags : Option (List String) := none
  version : Option String := none
  author : Option String := none
  updatedAt : Option String := none
  stars : Option Int := none
  sourceUrl : Option String := none
  deriving Repr, DecidableEq

/-- JavaScript `a || b` restricted to an optional string on the left and a
string on the right: the left value wins exactly when it is truthy,
i.e. present and nonempty. -/
def jsOr (a : Option String) (b : String) : String :=
  match a with
  | some s => if s = "" then b else s
  | none => b

/-- JavaScript `a || b` for an optional number on the left (`0` is falsy). -/
def jsOrInt (a : Option Int) (b : Int) : Int :=
  match a with
  | some n => if n = 0 then b else n
  | none => b

/-- Tag merge of `scanSkills` (sync-skills.js lines 283–287):
`Array.isArray(jsonData.tags) && jsonData.tags.length > 0 ? jsonData.tags
: (Array.isArray(indexData.tags) && indexData.tags.length > 0 ? indexData.tags
: (Array.isArray(parsed.data.tags) ? parsed.data.tags : []))`. -/
def mergeTags (jdTags idxTags fmTags : Option (List String)) : List String :=
  match jdTags with
  | some (t :: ts) => t :: ts
  | _ =>
    match idxTags with
    | some (t :: ts) => t :: ts
    | _ =>
      match fmTags with
      | some l => l
      | none => []

/-! ### File records and the file scan -/

/-- POSIX `path.join` for the simple segment shapes the script builds
(`path.join('', b) = b`, `path.join(a, b) = a ++ "/" ++ b`). -/
def pathJoin (a b : String) : String :=
  if a = "" then b else a ++ "/" ++ b

/-- Helper for `extname`: scan a reversed character list up to the first
dot, returning the characters before it (reversed extension body) and the
characters after it. -/
def revUptoDot : List Char → Option (List Char × List Char)
  | [] => none
  | c :: cs =>
    if c = '.' then some ([], cs)
    else
      match revUptoDot cs with
      | some (pre, rest) => some (c :: pre, rest)
      | none => none

/-- Node `path.extname` on a plain file name: the substring from the last
dot to the end, empty when there is no dot or the only dot is the leading
character. -/
def extname (s : String) : String :=
  match revUptoDot s.data.reverse with
  | some (pre, rest) => if rest.isEmpty then "" else String.mk ('.' :: pre.reverse)
  | none => ""

/-- The extension-to-type table of `getFileType` (sync-skills.js lines
362–392). -/
def typeMap : List (String × String) :=
  [(".md", "markdown"), (".js", "code"), (".ts", "code"), (".jsx", "code"),
   (".tsx", "code"), (".json", "code"), (".yaml", "code"), (".yml", "code"),
   (".sh", "code"), (".bash", "code"), (".py", "code"), (".rb", "code"),
   (".go", "code"), (".rs", "code"), (".java", "code"), (".c", "code"),
   (".cpp", "code"), (".h", "code"), (".css", "code"), (".scss", "code"),
   (".less", "code"), (".html", "code"), (".xml", "code"), (".txt", "text"),
   (".mdx", "markdown")]

/-- `getFileType`: `typeMap[ext] || 'text'` (no mapped value is falsy, so
the lookup default is exactly `'text'`). -/
def getFileType (ext : String) : String :=
  (typeMap.lookup ext).getD "text"

/-- Model of JavaScript `String.prototype.toLowerCase` on the ASCII
names this repository deals in: lowercase every character. -/
def jsToLower (s : String) : String :=
  String.mk (s.data.map Char.toLower)

/-- One record of the `files` array built by `scanSkillFiles`. -/
structure FileRec where
  name : String
  path : String
  type : String
  relativePath : String
  deriving Repr, DecidableEq

/-! ### The skill record built by `scanSkills` -/

structure Skill where
  id : String
  name : String
  path : String
  description : String
  tags : List String
  version : String
  author : String
  updatedAt : String
  stars : Int
  sourceUrl : String
  files : List FileRec
  hasMultipleFiles : Bool
  content : String
  downloadUrl : String
  installCommand : String
  deriving Repr, DecidableEq

/-- The record pushed by `scanSkills` for one discovered skill
(sync-skills.js lines 289–307).  `entryName` is the directory name, `fm`
the parsed front matter, `body` the descriptor body, `jd` the per-entity
JSON record, `idx` the combined-index record, `files` the scanned file
list and `today` the value of `new Date().toISOString().split('T')[0]`.
The source lists `downloadUrl` twice; the later object key wins, so the
field holds the slash-prefixed form. -/
def mkSkill (entryName : String) (fm : MetaData) (body : String)
    (jd idx : MetaData) (files : List FileRec) (today : String) : Skill :=
  { id := entryName
    name := jsOr fm.name entryName
    path := entryName
    description := jsOr fm.description (jsOr jd.description (jsOr idx.description ""))
    tags := mergeTags jd.tags idx.tags fm.tags
    version := jsOr fm.version (jsOr jd.version (jsOr idx.version "1.0.0"))
    author := jsOr fm.author (jsOr jd.author "AI-Agent Team")
    updatedAt := jsOr fm.updatedAt (jsOr jd.updatedAt today)
    stars := jsOrInt jd.stars 0
    sourceUrl := jsOr jd.sourceUrl ""
    files := files
    hasMultipleFiles := decide (files.length > 1)
    content := body
    downloadUrl := "/downloads/" ++ entryName ++ ".zip"
    installCommand := "pa-skills add " ++ entryName }

/-! ### The `localeCompare` collation model

`scanSkillFiles` sorts with `a.name.localeCompare(b.name)`.  Node's
default ICU root collation on ASCII letters, digits and dots compares the
case-folded code points first and breaks exact folded ties by case, with
lowercase ordered before uppercase (so `'a' < 'B'` even though the code
points order the other way).  `collKey` realises that as a sort key:
folded code points (shifted by one so that the `0` terminator makes a
proper prefix sort first), then a case bit per character. -/

def collKey (s : String) : List Nat :=
  s.data.map (fun c => c.toLower.toNat + 1) ++ 0 :: s.data.map (fun c => if c.isUpper then 1 else 0)

/-- Lexicographic comparison of `Nat` lists. -/
def cmpNatList : List Nat → List Nat → Ordering
  | [], [] => .eq
  | [], _ :: _ => .lt
  | _ :: _, [] => .gt
  | a :: as, b :: bs =>
    if a < b then .lt else if b < a then .gt else cmpNatList as bs

def ordToInt : Ordering → Int
  | .lt => -1
  | .eq => 0
  | .gt => 1

/-- Model of JavaScript `String.prototype.localeCompare` under Node's
default root-locale collation, restricted to the ASCII names this
repository deals in. -/
def localeCompare (a b : String) : Int :=
  ordToInt (cmpNatList (collKey a) (collKey b))

/-- The comparator of `scanSkillFiles` (sync-skills.js lines 352–356). -/
def fileCmp (a b : FileRec) : Int :=
  if a.name = "SKILL.md" then -1
  else if b.name = "SKILL.md" then 1
  else localeCompare a.name b.name

/-- `a` may precede `b` in the sorted output: the non-strict order induced
by the comparator, as JavaScript `Array.prototype.sort` uses it. -/
def fileLe (a b : FileRec) : Prop := fileCmp a b ≤ 0

instance : DecidableRel fileLe := fun _ _ => inferInstanceAs (Decidable (_ ≤ _))

/-! ### Directory trees and `scanSkillFiles` -/

/-- A directory subtree as `fs.readdir` exposes it: file contents are byte
lists, directory entries come in readdir order. -/
inductive Tree where
  | file (content : List Nat)
  | dir (entries : List (String × Tree))
  deriving Repr

/-- The `files.push` record of `scanDir` for a plain file entry:
`path.join(skillName, relPath)` never sees a backslash on POSIX, so the
`replace(/\\/g, '/')` is the identity here. -/
def mkFileRec (skillName rel n : String) : FileRec :=
  { name := n
    path := pathJoin skillName (pathJoin rel n)
    type := getFileType (jsToLower (extname n))
    relativePath := pathJoin rel n }

/-- The recursive walk `scanDir` of `scanSkillFiles`: directories recurse
in place, files are pushed, all in readdir order. -/
def scanDir (skillName : String) (rel : String) : List (String × Tree) → List FileRec
  | [] => []
  | (n, Tree.dir sub) :: rest =>
    scanDir skillName (pathJoin rel n) sub ++ scanDir skillName rel rest
  | (n, Tree.file _) :: rest => mkFileRec skillName rel n :: scanDir skillName rel rest

/-- `scanSkillFiles`: walk the tree, then sort with the `SKILL.md`-first
comparator.  JavaScript `sort` is stable and the comparator is consistent
for the name sets that occur, so a stable insertion sort models it. -/
def scanSkillFiles (entries : List (String × Tree)) (skillName : String) : List FileRec :=
  List.insertionSort fileLe (scanDir skillName "" entries)

/-! ### `calculateTags`

The script counts tag uses in an insertion-ordered `Map`, turns the
entries into `{name, count}` records and sorts them by count descending
with the stable built-in sort.  The `Map` is embedded as an association
list whose update keeps the key's position and whose insert appends. -/

/-- Model of JavaScript `String.prototype.trim`: strip leading and
trailing whitespace characters. -/
def jsTrim (s : String) : String :=
  String.mk (((s.data.dropWhile Char.isWhitespace).reverse.dropWhile Char.isWhitespace).reverse)

/-- `tagCount.set(tag, (tagCount.get(tag) || 0) + 1)` on an
insertion-ordered map. -/
def bump : List (String × Nat) → String → List (String × Nat)
  | [], t => [(t, 1)]
  | (k, v) :: rest, t =>
    if k = t then (k, v + 1) :: rest else (k, v) :: bump rest t

/-- The guarded body of the inner loop: `if (tag && jsTrim tag())`. -/
def addTag (acc : List (String × Nat)) (tag : String) : List (String × Nat) :=
  if tag ≠ "" ∧ jsTrim tag ≠ "" then bump acc tag else acc

/-- The fully built count map, in insertion (first-seen) order.  In the
script every `skill.tags` is an array by construction, so the
`Array.isArray` guard of the loop is always taken. -/
def tagEntries (skills : List Skill) : List (String × Nat) :=
  skills.foldl (fun acc sk => sk.tags.foldl addTag acc) []

structure TagSummary where
  name : String
  count : Nat
  deriving Repr, DecidableEq

/-- Descending-count order: the JS comparator `(a, b) => b.count - a.count`
lets `a` stay before `b` exactly when `b.count - a.count ≤ 0`. -/
def tagLe (a b : TagSummary) : Prop := b.count ≤ a.count

instance : DecidableRel tagLe := fun _ _ => inferInstanceAs (Decidable (_ ≤ _))

/-- `calculateTags` (sync-skills.js lines 397–413). -/
def calculateTags (skills : List Skill) : List TagSummary :=
  List.insertionSort tagLe
    ((tagEntries skills).map (fun p => { name := p.1, count := p.2 }))

/-! ### The metadata readers

Both readers wrap all their I/O and parsing in one `try`; the embedding
takes the outcome of that I/O as input.  `Except.error` is a thrown
JavaScript error, the `Bool` in the result records whether the warning
branch ran. -/

/-- The parsed combined index file: `data.skills` when it is an array. -/
structure IndexJson where
  skills : Option (List MetaData)

/-- Insertion keyed by name, as `Map.set` behaves on the assoc-list map
model (overwrite keeps the position, new keys append). -/
def mapSet (m : List (String × MetaData)) (k : String) (v : MetaData) : List (String × MetaData) :=
  match m with
  | [] => [(k, v)]
  | (k0, v0) :: rest => if k0 = k then (k0, v) :: rest else (k0, v0) :: mapSet rest k v

/-- `Map.set` for the combined-index map, whose key `skill.name` is set
without a presence check and may therefore be `undefined` (`none`). -/
def mapSetI (m : List (Option String × MetaData)) (k : Option String) (v : MetaData) :
    List (Option String × MetaData) :=
  match m with
  | [] => [(k, v)]
  | (k0, v0) :: rest => if k0 = k then (k0, v) :: rest else (k0, v0) :: mapSetI rest k v

/-- `readSkillsIndex` (sync-skills.js lines 185–203): `readResult` is the
combined outcome of `fs.readFile` plus `JSON.parse`; any failure lands in
the `catch`, which warns and returns an empty map. -/
def readSkillsIndex (readResult : Except String IndexJson) :
    List (Option String × MetaData) × Bool :=
  match readResult with
  | Except.error _ => ([], true)
  | Except.ok data =>
    match data.skills with
    | some skills =>
      (skills.foldl (fun m sk => mapSetI m sk.name sk) [], false)
    | none => ([], false)

/-- One directory entry of the `skills-json` directory, with the outcome
of reading and parsing its file. -/
structure JsonDirEntry where
  name : String
  isFile : Bool
  parsed : Except String MetaData

/-- The loop of `readSkillsJsonData`: non-files and non-`.json` names are
skipped; a read/parse failure throws out of the loop into the `catch`,
which warns, and the partially filled map is returned either way. -/
def readJsonLoop (m : List (String × MetaData)) :
    List JsonDirEntry → List (String × MetaData) × Bool
  | [] => (m, false)
  | e :: rest =>
    if e.isFile ∧ e.name.endsWith ".json" then
      match e.parsed with
      | Except.error _ => (m, true)
      | Except.ok data =>
        match data.name with
        | some n => if n = "" then readJsonLoop m rest else readJsonLoop (mapSet m n data) rest
        | none => readJsonLoop m rest
    else readJsonLoop m rest

/-- `readSkillsJsonData` (sync-skills.js lines 208–233): `dirResult` is
the outcome of `fs.readdir`; a directory-access failure lands in the
`catch`, which warns and leaves the map empty. -/
def readSkillsJsonData (dirResult : Except String (List JsonDirEntry)) :
    List (String × MetaData) × Bool :=
  match dirResult with
  | Except.error _ => ([], true)
  | Except.ok entries => readJsonLoop [] entries

/-! ### `packSkill` and the archive round trip

JSZip is modelled at its interface: `folder(name)` scopes subsequent
entries under `name + "/"`, `file(name, content)` records the bytes at
the scoped path, and extracting the generated archive yields exactly the
recorded path/content pairs. -/

/-- The recursion `addFilesToZip` of `packSkill` (sync-skills.js lines
423–437), with `pre` the accumulated folder prefix of the JSZip handle. -/
def addFilesToZip (pre : String) : List (String × Tree) → List (String × List Nat)
  | [] => []
  | (n, Tree.dir sub) :: rest =>
    addFilesToZip (pre ++ n ++ "/") sub ++ addFilesToZip pre rest
  | (n, Tree.file c) :: rest => (pre ++ n, c) :: addFilesToZip pre rest

/-- The archive `packSkill` writes for a skill directory: entries of the
zip built from the root handle. -/
def packSkillArchive (entries : List (String × Tree)) : List (String × List Nat) :=
  addFilesToZip "" entries

/-- The original file set of a directory subtree: relative
forward-slash path and byte content of every file, in tree order. -/
def treeFiles (rel : String) : List (String × Tree) → List (String × List Nat)
  | [] => []
  | (n, Tree.dir sub) :: rest => treeFiles (pathJoin rel n) sub ++ treeFiles rel rest
  | (n, Tree.file c) :: rest => (pathJoin rel n, c) :: treeFiles rel rest

/-! ### The orchestrator `main`

`main` is one `try`/`catch` around the whole pipeline; the embedding
takes the outcomes of the fallible stages as input and records what the
run did.  `process.exit(1)` only ever runs in the `catch`; a normal
return of `main` ends the process with status 0. -/

structure ScriptEnv where
  repo : Except String Unit
  scannedSkills : List Skill
  packResult : Except String Unit
  indexWrite : Except String Unit
  contentWrite : Except String Unit

structure RunOutcome where
  exitCode : Nat
  warnedZero : Bool
  packaged : Bool
  wroteIndex : Bool
  wroteContent : Bool
  deriving Repr, DecidableEq

/-- The control flow of `main` (sync-skills.js lines 492–565): locate the
repo, scan, soft-stop on zero skills, then package, write the index and
write the content files, any thrown error reaching the `catch` that
exits 1. -/
def mainRun (env : ScriptEnv) : RunOutcome :=
  match env.repo with
  | Except.error _ =>
    { exitCode := 1, warnedZero := false, packaged := false
      wroteIndex := false, wroteContent := false }
  | Except.ok _ =>
    if env.scannedSkills.length = 0 then
      { exitCode := 0, warnedZero := true, packaged := false
        wroteIndex := false, wroteContent := false }
    else
      match env.packResult with
      | Except.error _ =>
        { exitCode := 1, warnedZero := false, packaged := false
          wroteIndex := false, wroteContent := false }
      | Except.ok _ =>
        match env.indexWrite with
        | Except.error _ =>
          { exitCode := 1, warnedZero := false, packaged := true
            wroteIndex := false, wroteContent := false }
        | Except.ok _ =>
          match env.contentWrite with
          | Except.error _ =>
            { exitCode := 1, warnedZero := false, packaged := true
              wroteIndex := true, wroteContent := false }
          | Except.ok _ =>
            { exitCode := 0, warnedZero := false, packaged := true
              wroteIndex := true, wroteContent := true }

/-! ### Measurement helpers and sample data used by the theorems -/

/-- Total count booked under the exact key `t` in the count-map model. -/
def keyCount (l : List (String × Nat)) (t : String) : Nat :=
  ((l.filter (fun p => p.1 = t)).map (fun p => p.2)).sum

/-- Total count the tag summary sequence reports for the exact name `t`. -/
def sumCounts (l : List TagSummary) (t : String) : Nat :=
  ((l.filter (fun e => e.name = t)).map (fun e => e.count)).sum

/-- Sample skill mirroring the spec scenario `auth-helper`. -/
def demoSkillA : Skill :=
  mkSkill "auth-helper" { tags := some ["security"] } "" {} {} [] "2024-06-01"

/-- Sample skill mirroring the spec scenario `json-formatter`. -/
def demoSkillB : Skill :=
  mkSkill "json-formatter" { tags := some [] } "" { tags := some ["text", "tools"] } {} []
    "2024-06-01"

/-- Sample skill whose front matter repeats a tag and carries a
whitespace-prefixed variant of it. -/
def demoSkillC : Skill :=
  mkSkill "dup-tags" { tags := some ["tools", " tools", "tools"] } "" {} {} [] "2024-06-01"

/-- The folder prefix the zip model reaches at relative path `rel`. -/
def slashed (rel : String) : String :=
  if rel = "" then "" else rel ++ "/"

/-- Every entry name in the directory tree is nonempty, as `fs.readdir`
guarantees. -/
def namesOkB : List (String × Tree) → Bool
  | [] => true
  | (n, Tree.dir sub) :: rest => decide (n ≠ "") && namesOkB sub && namesOkB rest
  | (n, Tree.file _) :: rest => decide (n ≠ "") && namesOkB rest

instance : IsTotal TagSummary tagLe :=
  ⟨fun a b => Nat.le_total b.count a.count⟩

instance : IsTrans TagSummary tagLe :=
  ⟨fun _ _ _ hab hbc => le_trans hbc hab⟩

/-- Stated from the claim wording for file ordering: case-sensitive
ordinal comparison of names, i.e. lexicographic comparison of the code
points, as JavaScript `<` compares strings. -/
def ordinalLe (a b : String) : Prop :=
  cmpNatList (a.data.map Char.toNat) (b.data.map Char.toNat) ≠ .gt

instance : DecidableRel ordinalLe := fun _ _ => inferInstanceAs (Decidable (_ ≠ _))

/-- Sample skill directory: three files whose readdir order differs from
their sorted order, plus a nested subdirectory. -/
def demoFileTree : List (String × Tree) :=
  [("b.md", Tree.file []), ("SKILL.md", Tree.file [35, 32]), ("a.md", Tree.file []),
   ("sub", Tree.dir [("z.txt", Tree.file [9])])]

/-- Sample skill directory with two levels of nesting, used for the
packaging round trip. -/
def demoZipTree : List (String × Tree) :=
  [("SKILL.md", Tree.file [35, 32]),
   ("docs", Tree.dir
     [("guide.md", Tree.file [1, 2, 3]), ("deep", Tree.dir [("x.txt", Tree.file [9])])]),
   ("run.sh", Tree.file [])]

/-! ### Claim-side comparison definitions -/

/-- Stated from the claim wording for the tag merge: the first non-empty
array among per-entity JSON tags, combined-index tags and front-matter
tags, in that order; when none is a non-empty array, the front-matter
tags when they are an array, else the empty list. -/
def claimTagResolve (jdTags idxTags fmTags : Option (List String)) : List String :=
  if (jdTags.getD []).length > 0 then jdTags.getD []
  else if (idxTags.getD []).length > 0 then idxTags.getD []
  else if (fmTags.getD []).length > 0 then fmTags.getD []
  else
    match fmTags with
    | some l => l
    | none => []

/-- Stated from the claim wording for the scalar cascades: the first
truthy value in the source list, else the default. -/
def firstTruthy : List (Option String) → String → String
  | [], d => d
  | some s :: rest, d => if s = "" then firstTruthy rest d else s
  | none :: rest, d => firstTruthy rest d

/-! ### Theorems for the claims -/

/-- C3: for every entity, the resulting tags array is the first non-empty
array among, in order, the per-entity JSON tags, the combined-index tags
and the descriptor front-matter tags; when none is a non-empty array it
is the front-matter array when present, else empty — so a non-empty
per-entity JSON tags array wins entirely, with no element-level merging. -/
theorem scan_tags_first_nonempty_source (entryName body today : String)
    (fm jd idx : MetaData) (files : List FileRec) :
    (mkSkill entryName fm body jd idx files today).tags
      = claimTagResolve jd.tags idx.tags fm.tags := by
  show mergeTags jd.tags idx.tags fm.tags = _
  rcases jd.tags with _ | ⟨_ | ⟨t, ts⟩⟩ <;>
    rcases idx.tags with _ | ⟨_ | ⟨u, us⟩⟩ <;>
      rcases fm.tags with _ | l <;>
        simp [mergeTags, claimTagResolve]

/-- C1 counterexample: an entity whose only author source is the combined
index does not receive that author — the code never consults the index
for `author`, falling back to the built-in default instead. -/
theorem scan_author_index_ignored_counterexample :
    (mkSkill "demo" {} "" {} { author := some "Alice" } [] "2024-06-01").author
        = "AI-Agent Team"
      ∧ (mkSkill "demo" {} "" {} { author := some "Alice" } [] "2024-06-01").author
        ≠ "Alice" := by
  constructor
  · rfl
  · decide

/-- C1 amended: `description` and `version` follow the four-step cascade
front matter, then per-entity JSON, then combined index, then default
(`""` / `"1.0.0"`), while `author` and `updatedAt` skip the combined
index and fall from front matter to per-entity JSON straight to the
default (`"AI-Agent Team"` / the current date); a front-matter version
`"2.1.0"` always wins. -/
theorem scan_scalar_precedence_amended (entryName body today : String)
    (fm jd idx : MetaData) (files : List FileRec) :
    (mkSkill entryName fm body jd idx files today).description
        = firstTruthy [fm.description, jd.description, idx.description] ""
    ∧ (mkSkill entryName fm body jd idx files today).version
        = firstTruthy [fm.version, jd.version, idx.version] "1.0.0"
    ∧ (mkSkill entryName fm body jd idx files today).author
        = firstTruthy [fm.author, jd.author] "AI-Agent Team"
    ∧ (mkSkill entryName fm body jd idx files today).updatedAt
        = firstTruthy [fm.updatedAt, jd.updatedAt] today
    ∧ (fm.version = some "2.1.0" →
        (mkSkill entryName fm body jd idx files today).version = "2.1.0") := by
  refine ⟨?_, ?_, ?_, ?_, ?_⟩
  · rcases ha : fm.description with _ | a <;> rcases hb : jd.description with _ | b <;>
      rcases hc : idx.description with _ | c <;> simp [mkSkill, jsOr, firstTruthy, ha, hb, hc]
  · rcases ha : fm.version with _ | a <;> rcases hb : jd.version with _ | b <;>
      rcases hc : idx.version with _ | c <;> simp [mkSkill, jsOr, firstTruthy, ha, hb, hc]
  · rcases ha : fm.author with _ | a <;> rcases hb : jd.author with _ | b <;>
      simp [mkSkill, jsOr, firstTruthy, ha, hb]
  · rcases ha : fm.updatedAt with _ | a <;> rcases hb : jd.updatedAt with _ | b <;>
      simp [mkSkill, jsOr, firstTruthy, ha, hb]
  · intro h
    simp [mkSkill, jsOr, h]

/-- Witness for the amended C1 theorem at a concrete entity: a
front-matter version `"2.1.0"` with no other version source resolves to
`"2.1.0"`. -/
theorem scan_scalar_precedence_amended_witness :
    (mkSkill "demo" { version := some "2.1.0" } "" {} {} [] "2024-06-01").version
      = "2.1.0" :=
  (scan_scalar_precedence_amended "demo" "" "2024-06-01"
    { version := some "2.1.0" } {} {} []).2.2.2.2 rfl

/-- C9: the scalar cascade tests truthiness, not presence — a falsy
(empty-string) front-matter value behaves exactly as an absent one for
each of the four scalar fields, and an empty front-matter description can
never beat a non-empty per-entity JSON description. -/
theorem scan_scalar_truthiness (entryName body today : String)
    (fm jd idx : MetaData) (files : List FileRec) :
    (fm.description = some "" →
      (mkSkill entryName fm body jd idx files today).description
        = (mkSkill entryName { fm with description := none } body jd idx files today).description)
    ∧ (fm.version = some "" →
      (mkSkill entryName fm body jd idx files today).version
        = (mkSkill entryName { fm with version := none } body jd idx files today).version)
    ∧ (fm.author = some "" →
      (mkSkill entryName fm body jd idx files today).author
        = (mkSkill entryName { fm with author := none } body jd idx files today).author)
    ∧ (fm.updatedAt = some "" →
      (mkSkill entryName fm body jd idx files today).updatedAt
        = (mkSkill entryName { fm with updatedAt := none } body jd idx files today).updatedAt)
    ∧ (∀ d, fm.description = some "" → jd.description = some d → d ≠ "" →
        (mkSkill entryName fm body jd idx files today).description = d) := by
  refine ⟨?_, ?_, ?_, ?_, ?_⟩
  · intro h; simp [mkSkill, jsOr, h]
  · intro h; simp [mkSkill, jsOr, h]
  · intro h; simp [mkSkill, jsOr, h]
  · intro h; simp [mkSkill, jsOr, h]
  · intro d h hd hne; simp [mkSkill, jsOr, h, hd, hne]

/-- Witness for the truthiness theorem at a concrete entity whose front
matter carries empty strings in all four scalar fields and whose
per-entity JSON carries a non-empty description. -/
theorem scan_scalar_truthiness_witness :
    ((mkSkill "demo"
          { description := some "", version := some "", author := some "", updatedAt := some "" }
          "" { description := some "from-json" } {} [] "2024-06-01").description
      = (mkSkill "demo"
          { version := some "", author := some "", updatedAt := some "" }
          "" { description := some "from-json" } {} [] "2024-06-01").description)
    ∧ (mkSkill "demo"
          { description := some "", version := some "", author := some "", updatedAt := some "" }
          "" { description := some "from-json" } {} [] "2024-06-01").description
      = "from-json" := by
  have h := scan_scalar_truthiness "demo" "" "2024-06-01"
    { description := some "", version := some "", author := some "", updatedAt := some "" }
    { description := some "from-json" } {} []
  exact ⟨h.1 rfl, h.2.2.2.2 "from-json" rfl rfl (by decide)⟩

/-- C7: `stars` and `sourceUrl` depend only on the per-entity JSON
metadata — varying the front matter, the combined-index record and every
other input leaves them unchanged — and they default to `0` and `""`
when the per-entity JSON does not supply them. -/
theorem scan_stars_sourceUrl_only_json
    (entryName body today entryName2 body2 today2 : String)
    (fm fm2 jd idx idx2 : MetaData) (files files2 : List FileRec) :
    ((mkSkill entryName fm body jd idx files today).stars
        = (mkSkill entryName2 fm2 body2 jd idx2 files2 today2).stars)
    ∧ ((mkSkill entryName fm body jd idx files today).sourceUrl
        = (mkSkill entryName2 fm2 body2 jd idx2 files2 today2).sourceUrl)
    ∧ (jd.stars = none → (mkSkill entryName fm body jd idx files today).stars = 0)
    ∧ (jd.sourceUrl = none → (mkSkill entryName fm body jd idx files today).sourceUrl = "") := by
  refine ⟨rfl, rfl, ?_, ?_⟩
  · intro h; simp [mkSkill, jsOrInt, h]
  · intro h; simp [mkSkill, jsOr, h]

/-- Witness for the `stars`/`sourceUrl` theorem at concrete entities with
no per-entity JSON values. -/
theorem scan_stars_sourceUrl_only_json_witness :
    ((mkSkill "a" { author := some "X" } "" {} { stars := some 9 } [] "d").stars
        = (mkSkill "b" {} "body" {} { stars := some 5 } [] "e").stars)
    ∧ ((mkSkill "a" { author := some "X" } "" {} { stars := some 9 } [] "d").sourceUrl
        = (mkSkill "b" {} "body" {} { stars := some 5 } [] "e").sourceUrl)
    ∧ (mkSkill "a" { author := some "X" } "" {} { stars := some 9 } [] "d").stars = 0
    ∧ (mkSkill "a" { author := some "X" } "" {} { stars := some 9 } [] "d").sourceUrl = "" := by
  have h := scan_stars_sourceUrl_only_json "a" "" "d" "b" "body" "e"
    { author := some "X" } {} {} { stars := some 9 } { stars := some 5 } [] []
  exact ⟨h.1, h.2.1, h.2.2.1 rfl, h.2.2.2 rfl⟩

/-- C6: neither metadata reader propagates an error — a combined-index
read or parse failure yields the empty mapping with a warning, and a
`skills-json` directory-access failure yields the empty mapping with a
warning. -/
theorem readers_never_fatal (indexErr dirErr : String) :
    readSkillsIndex (Except.error indexErr) = ([], true)
    ∧ readSkillsJsonData (Except.error dirErr) = ([], true) :=
  ⟨rfl, rfl⟩

/-- C4: a run that scans zero entities soft-stops — it warns, performs no
packaging, index generation or content writing, and the process ends with
status 0 — while a repository-location failure, a packaging failure, an
index-write failure or a content-write failure each end the process with
status 1. -/
theorem main_exit_codes (envZero envRepoErr envPackErr envIdxErr envContentErr : ScriptEnv)
    (msg : String)
    (h0a : envZero.repo = Except.ok ()) (h0b : envZero.scannedSkills = [])
    (h1 : envRepoErr.repo = Except.error msg)
    (h2a : envPackErr.repo = Except.ok ()) (h2b : envPackErr.scannedSkills ≠ [])
    (h2c : envPackErr.packResult = Except.error msg)
    (h3a : envIdxErr.repo = Except.ok ()) (h3b : envIdxErr.scannedSkills ≠ [])
    (h3c : envIdxErr.packResult = Except.ok ()) (h3d : envIdxErr.indexWrite = Except.error msg)
    (h4a : envContentErr.repo = Except.ok ()) (h4b : envContentErr.scannedSkills ≠ [])
    (h4c : envContentErr.packResult = Except.ok ())
    (h4d : envContentErr.indexWrite = Except.ok ())
    (h4e : envContentErr.contentWrite = Except.error msg) :
    mainRun envZero
        = { exitCode := 0, warnedZero := true, packaged := false, wroteIndex := false,
            wroteContent := false }
    ∧ (mainRun envRepoErr).exitCode = 1
    ∧ (mainRun envPackErr).exitCode = 1
    ∧ (mainRun envIdxErr).exitCode = 1
    ∧ (mainRun envContentErr).exitCode = 1 := by
  refine ⟨?_, ?_, ?_, ?_, ?_⟩
  · simp [mainRun, h0a, h0b]
  · simp [mainRun, h1]
  · have hne : ¬ envPackErr.scannedSkills.length = 0 := by
      simpa [List.length_eq_zero] using h2b
    simp [mainRun, h2a, h2c, hne]
  · have hne : ¬ envIdxErr.scannedSkills.length = 0 := by
      simpa [List.length_eq_zero] using h3b
    simp [mainRun, h3a, h3c, h3d, hne]
  · have hne : ¬ envContentErr.scannedSkills.length = 0 := by
      simpa [List.length_eq_zero] using h4b
    simp [mainRun, h4a, h4c, h4d, h4e, hne]

/-- Witness for the exit-code theorem at concrete environments built over
one sample skill. -/
theorem main_exit_codes_witness :
    mainRun
        { repo := Except.ok (), scannedSkills := [], packResult := Except.ok (),
          indexWrite := Except.ok (), contentWrite := Except.ok () }
        = { exitCode := 0, warnedZero := true, packaged := false, wroteIndex := false,
            wroteContent := false }
    ∧ (mainRun
        { repo := Except.error "no repo", scannedSkills := [], packResult := Except.ok (),
          indexWrite := Except.ok (), contentWrite := Except.ok () }).exitCode = 1
    ∧ (mainRun
        { repo := Except.ok (), scannedSkills := [demoSkillA],
          packResult := Except.error "no repo", indexWrite := Except.ok (),
          contentWrite := Except.ok () }).exitCode = 1
    ∧ (mainRun
        { repo := Except.ok (), scannedSkills := [demoSkillA], packResult := Except.ok (),
          indexWrite := Except.error "no repo", contentWrite := Except.ok () }).exitCode = 1
    ∧ (mainRun
        { repo := Except.ok (), scannedSkills := [demoSkillA], packResult := Except.ok (),
          indexWrite := Except.ok (), contentWrite := Except.error "no repo" }).exitCode = 1 :=
  main_exit_codes
    { repo := Except.ok (), scannedSkills := [], packResult := Except.ok (),
      indexWrite := Except.ok (), contentWrite := Except.ok () }
    { repo := Except.error "no repo", scannedSkills := [], packResult := Except.ok (),
      indexWrite := Except.ok (), contentWrite := Except.ok () }
    { repo := Except.ok (), scannedSkills := [demoSkillA], packResult := Except.error "no repo",
      indexWrite := Except.ok (), contentWrite := Except.ok () }
    { repo := Except.ok (), scannedSkills := [demoSkillA], packResult := Except.ok (),
      indexWrite := Except.error "no repo", contentWrite := Except.ok () }
    { repo := Except.ok (), scannedSkills := [demoSkillA], packResult := Except.ok (),
      indexWrite := Except.ok (), contentWrite := Except.error "no repo" }
    "no repo" rfl rfl rfl rfl (by simp) rfl rfl (by simp) rfl rfl rfl (by simp) rfl rfl rfl

/-! ### Lemmas about `calculateTags` -/

theorem filter_count_orderedInsert (c : Nat) (x : TagSummary) :
    ∀ l : List TagSummary,
      (List.orderedInsert tagLe x l).filter (fun e => e.count = c)
        = if x.count = c then x :: l.filter (fun e => e.count = c)
          else l.filter (fun e => e.count = c)
  | [] => by simp [List.filter_cons]
  | b :: l => by
    by_cases hle : tagLe x b
    · simp [List.orderedInsert, hle, List.filter_cons]
    · have hgt : b.count > x.count := Nat.lt_of_not_le (by simpa [tagLe] using hle)
      rw [List.orderedInsert, if_neg hle]
      rw [List.filter_cons, List.filter_cons, filter_count_orderedInsert c x l]
      by_cases hx : x.count = c
      · have hb : ¬ b.count = c := by omega
        simp [hx, hb]
      · simp [hx]

theorem filter_count_insertionSort (c : Nat) :
    ∀ l : List TagSummary,
      (List.insertionSort tagLe l).filter (fun e => e.count = c)
        = l.filter (fun e => e.count = c)
  | [] => rfl
  | x :: l => by
    rw [List.insertionSort, filter_count_orderedInsert c x,
      filter_count_insertionSort c l, List.filter_cons]
    by_cases hx : x.count = c <;> simp [hx]

theorem mem_bump : ∀ {l : List (String × Nat)} {t : String} {p : String × Nat},
    p ∈ bump l t → p ∈ l ∨ (p.1 = t ∧ 1 ≤ p.2)
  | [], t, p, h => by
    simp [bump] at h
    subst h
    exact Or.inr ⟨rfl, le_refl 1⟩
  | (k, v) :: rest, t, p, h => by
    by_cases hk : k = t
    · rw [bump, if_pos hk] at h
      rcases List.mem_cons.mp h with h | h
      · subst h
        exact Or.inr ⟨hk, Nat.le_add_left 1 v⟩
      · exact Or.inl (List.mem_cons_of_mem _ h)
    · rw [bump, if_neg hk] at h
      rcases List.mem_cons.mp h with h | h
      · exact Or.inl (h ▸ List.mem_cons_self _ _)
      · rcases mem_bump h with h | h
        · exact Or.inl (List.mem_cons_of_mem _ h)
        · exact Or.inr h

theorem addTag_ok {acc : List (String × Nat)} {tag : String}
    (h : ∀ p ∈ acc, 1 ≤ p.2 ∧ p.1 ≠ "" ∧ jsTrim p.1 ≠ "") :
    ∀ p ∈ addTag acc tag, 1 ≤ p.2 ∧ p.1 ≠ "" ∧ jsTrim p.1 ≠ "" := by
  unfold addTag
  split
  · next hpass =>
    intro p hp
    rcases mem_bump hp with hmem | ⟨hpt, hc⟩
    · exact h p hmem
    · exact ⟨hc, hpt ▸ hpass.1, hpt ▸ hpass.2⟩
  · exact h

theorem foldl_addTag_ok :
    ∀ (tags : List String) (acc : List (String × Nat)),
      (∀ p ∈ acc, 1 ≤ p.2 ∧ p.1 ≠ "" ∧ jsTrim p.1 ≠ "") →
      ∀ p ∈ tags.foldl addTag acc, 1 ≤ p.2 ∧ p.1 ≠ "" ∧ jsTrim p.1 ≠ ""
  | [], _, h => h
  | _ :: ts, _, h => foldl_addTag_ok ts _ (addTag_ok h)

theorem foldl_skills_ok :
    ∀ (skills : List Skill) (acc : List (String × Nat)),
      (∀ p ∈ acc, 1 ≤ p.2 ∧ p.1 ≠ "" ∧ jsTrim p.1 ≠ "") →
      ∀ p ∈ skills.foldl (fun a sk => sk.tags.foldl addTag a) acc,
        1 ≤ p.2 ∧ p.1 ≠ "" ∧ jsTrim p.1 ≠ ""
  | [], _, h => h
  | sk :: rest, acc, h => foldl_skills_ok rest _ (foldl_addTag_ok sk.tags acc h)

/-- C5: tag aggregation is the pure function sending the entity sequence
to `{name, count}` records sorted by count descending with ties kept in
first-seen (map-insertion) order — the sorted output restricted to any
fixed count equals the insertion-ordered entry list restricted to that
count — every emitted count is at least 1, and no whitespace-only or
empty tag is ever counted. -/
theorem calculateTags_spec (skills : List Skill) :
    (calculateTags skills).Sorted tagLe
    ∧ (∀ c : Nat,
        (calculateTags skills).filter (fun e => e.count = c)
          = ((tagEntries skills).map (fun p => { name := p.1, count := p.2 })).filter
              (fun e => e.count = c))
    ∧ (∀ e ∈ calculateTags skills, 1 ≤ e.count ∧ jsTrim e.name ≠ "") := by
  refine ⟨List.sorted_insertionSort tagLe _, fun c => filter_count_insertionSort c _, ?_⟩
  intro e he
  have hperm := List.perm_insertionSort tagLe
    ((tagEntries skills).map (fun p => ({ name := p.1, count := p.2 } : TagSummary)))
  have he2 := hperm.mem_iff.mp he
  obtain ⟨p, hp, hpe⟩ := List.mem_map.mp he2
  have hok := foldl_skills_ok skills [] (by simp) p hp
  subst hpe
  exact ⟨hok.1, hok.2.2⟩

/-- Witness for the aggregation theorem at the two spec-scenario skills:
three tags, each counted once, in first-seen order, all nonempty. -/
theorem calculateTags_spec_witness :
    (calculateTags [demoSkillA, demoSkillB]).Sorted tagLe
    ∧ (calculateTags [demoSkillA, demoSkillB]).filter (fun e => e.count = 1)
        = ((tagEntries [demoSkillA, demoSkillB]).map
            (fun p => { name := p.1, count := p.2 })).filter (fun e => e.count = 1)
    ∧ (1 ≤ (({ name := "security", count := 1 } : TagSummary)).count
        ∧ jsTrim (({ name := "security", count := 1 } : TagSummary)).name ≠ "") := by
  have h := calculateTags_spec [demoSkillA, demoSkillB]
  exact ⟨h.1, h.2.1 1, h.2.2 { name := "security", count := 1 } (by decide)⟩

/-! ### Lemmas about exact-string tag counting -/

theorem keyCount_bump_same : ∀ (l : List (String × Nat)) (t : String),
    keyCount (bump l t) t = keyCount l t + 1
  | [], t => by simp [bump, keyCount]
  | (k, v) :: rest, t => by
    by_cases hk : k = t
    · subst hk
      simp [bump, keyCount, List.filter_cons]
      omega
    · rw [bump, if_neg hk]
      simp only [keyCount, List.filter_cons]
      have : (decide (k = t)) = false := decide_eq_false hk
      simp [this]
      have := keyCount_bump_same rest t
      simp [keyCount] at this
      omega

theorem keyCount_bump_other : ∀ (l : List (String × Nat)) (t u : String), u ≠ t →
    keyCount (bump l u) t = keyCount l t
  | [], t, u, hu => by simp [bump, keyCount, List.filter_cons, hu]
  | (k, v) :: rest, t, u, hu => by
    by_cases hk : k = u
    · subst hk
      simp [bump, keyCount, List.filter_cons, hu]
    · rw [bump, if_neg hk]
      simp only [keyCount, List.filter_cons]
      have := keyCount_bump_other rest t u hu
      simp [keyCount] at this
      by_cases hkt : k = t <;> simp [hkt, this]

theorem keyCount_addTag (l : List (String × Nat)) (tag t : String) :
    keyCount (addTag l tag) t
      = keyCount l t
        + (if tag = t ∧ (tag ≠ "" ∧ jsTrim tag ≠ "") then 1 else 0) := by
  unfold addTag
  by_cases hpass : tag ≠ "" ∧ jsTrim tag ≠ ""
  · rw [if_pos hpass]
    by_cases ht : tag = t
    · subst ht
      simp [hpass, keyCount_bump_same]
    · simp [keyCount_bump_other l t tag ht, ht]
  · rw [if_neg hpass]
    simp [hpass]

theorem keyCount_foldl_tags (t : String) (ht : t ≠ "" ∧ jsTrim t ≠ "") :
    ∀ (tags : List String) (acc : List (String × Nat)),
      keyCount (tags.foldl addTag acc) t = keyCount acc t + tags.count t
  | [], acc => by simp
  | tag :: ts, acc => by
    rw [List.foldl_cons, keyCount_foldl_tags t ht ts, keyCount_addTag, List.count_cons]
    by_cases htag : tag = t
    · subst htag
      simp [ht]
      omega
    · have : (tag == t) = false := beq_false_of_ne htag
      simp [htag, this]

theorem keyCount_foldl_skills (t : String) (ht : t ≠ "" ∧ jsTrim t ≠ "") :
    ∀ (skills : List Skill) (acc : List (String × Nat)),
      keyCount (skills.foldl (fun a sk => sk.tags.foldl addTag a) acc) t
        = keyCount acc t + ((skills.map Skill.tags).flatten).count t
  | [], acc => by simp
  | sk :: rest, acc => by
    rw [List.foldl_cons, keyCount_foldl_skills t ht rest, keyCount_foldl_tags t ht sk.tags]
    simp [List.count_append]
    omega

theorem sumCounts_map (t : String) : ∀ l : List (String × Nat),
    sumCounts (l.map (fun p => { name := p.1, count := p.2 })) t = keyCount l t
  | [] => rfl
  | p :: l => by
    simp only [List.map_cons, sumCounts, keyCount, List.filter_cons]
    have := sumCounts_map t l
    simp [sumCounts, keyCount] at this
    by_cases hp : p.1 = t <;> simp [hp, this]

theorem sumCounts_perm {l1 l2 : List TagSummary} (h : l1.Perm l2) (t : String) :
    sumCounts l1 t = sumCounts l2 t := by
  unfold sumCounts
  exact List.Perm.sum_eq (List.Perm.map (fun e => e.count)
    (List.Perm.filter (fun e => decide (e.name = t)) h))

/-- C10: tag aggregation keys its counts by the original, untrimmed tag
string — for every string `t` that survives the truthy-and-trimmed
filter, the total count the output reports under the exact name `t`
equals the number of occurrences of exactly `t` across all entities' tag
lists, so whitespace variants are distinct entries and duplicates within
one entity count once per occurrence. -/
theorem calculateTags_counts_exact_strings (skills : List Skill) (t : String)
    (ht : t ≠ "" ∧ jsTrim t ≠ "") :
    sumCounts (calculateTags skills) t = ((skills.map Skill.tags).flatten).count t := by
  have hperm := List.perm_insertionSort tagLe
    ((tagEntries skills).map (fun p => ({ name := p.1, count := p.2 } : TagSummary)))
  rw [calculateTags, sumCounts_perm hperm, sumCounts_map]
  have h := keyCount_foldl_skills t ht skills []
  simpa [tagEntries, keyCount] using h

/-- Witness for the exact-string counting theorem: a skill with tags
`["tools", " tools", "tools"]` reports 2 for `"tools"` and 1 for the
whitespace-prefixed `" tools"`. -/
theorem calculateTags_counts_exact_strings_witness :
    sumCounts (calculateTags [demoSkillC]) "tools" = 2
    ∧ sumCounts (calculateTags [demoSkillC]) " tools" = 1 := by
  constructor
  · rw [calculateTags_counts_exact_strings [demoSkillC] "tools" (by decide)]
    decide
  · rw [calculateTags_counts_exact_strings [demoSkillC] " tools" (by decide)]
    decide

/-! ### Lemmas about the comparator and the file sort -/

theorem cmpNatList_swap : ∀ a b : List Nat, (cmpNatList a b).swap = cmpNatList b a
  | [], [] => rfl
  | [], _ :: _ => rfl
  | _ :: _, [] => rfl
  | a :: as, b :: bs => by
    rcases Nat.lt_trichotomy a b with h | h | h
    · have hba : ¬ b < a := by omega
      simp [cmpNatList, h, hba, Ordering.swap]
    · subst h
      simp only [cmpNatList, lt_irrefl, if_false]
      exact cmpNatList_swap as bs
    · have hab : ¬ a < b := by omega
      simp [cmpNatList, h, hab, Ordering.swap]

theorem cmpNatList_le_trans : ∀ a b c : List Nat,
    cmpNatList a b ≠ .gt → cmpNatList b c ≠ .gt → cmpNatList a c ≠ .gt
  | [], b, c, _, _ => by cases c <;> simp [cmpNatList]
  | _ :: _, [], _, h1, _ => by simp [cmpNatList] at h1
  | _ :: _, _ :: _, [], _, h2 => by simp [cmpNatList] at h2
  | a :: as, b :: bs, c :: cs, h1, h2 => by
    rw [cmpNatList] at h1 h2 ⊢
    rcases Nat.lt_trichotomy a b with hab | hab | hab
    · rcases Nat.lt_trichotomy b c with hbc | hbc | hbc
      · simp [show a < c by omega]
      · simp [show a < c by omega]
      · simp [show ¬ b < c by omega, hbc] at h2
    · subst hab
      rw [if_neg (lt_irrefl a), if_neg (lt_irrefl a)] at h1
      rcases Nat.lt_trichotomy a c with hac | hac | hac
      · simp [hac]
      · subst hac
        rw [if_neg (lt_irrefl a), if_neg (lt_irrefl a)] at h2 ⊢
        exact cmpNatList_le_trans as bs cs h1 h2
      · rw [if_neg (by omega : ¬ a < c), if_pos hac] at h2
        exact absurd rfl h2
    · rw [if_neg (by omega : ¬ a < b), if_pos hab] at h1
      exact absurd rfl h1

theorem localeCompare_nonpos_iff (a b : String) :
    localeCompare a b ≤ 0 ↔ cmpNatList (collKey a) (collKey b) ≠ .gt := by
  rw [localeCompare]
  rcases h : cmpNatList (collKey a) (collKey b) <;> decide

theorem fileLe_total (a b : FileRec) : fileLe a b ∨ fileLe b a := by
  unfold fileLe fileCmp
  by_cases ha : a.name = "SKILL.md"
  · left
    rw [if_pos ha]
    decide
  · by_cases hb : b.name = "SKILL.md"
    · right
      rw [if_pos hb]
      decide
    · rw [if_neg ha, if_neg hb, if_neg hb, if_neg ha]
      simp only [localeCompare_nonpos_iff]
      rcases h : cmpNatList (collKey a.name) (collKey b.name)
      · left
        simp [h]
      · left
        simp [h]
      · right
        have hswap := cmpNatList_swap (collKey a.name) (collKey b.name)
        rw [h] at hswap
        rw [← hswap]
        decide

theorem fileLe_trans (a b c : FileRec) (hab : fileLe a b) (hbc : fileLe b c) : fileLe a c := by
  unfold fileLe fileCmp at hab hbc ⊢
  by_cases ha : a.name = "SKILL.md"
  · rw [if_pos ha]
    decide
  · rw [if_neg ha] at hab ⊢
    by_cases hb : b.name = "SKILL.md"
    · rw [if_pos hb] at hab
      exact absurd hab (by decide)
    · rw [if_neg hb] at hab
      rw [if_neg hb] at hbc
      by_cases hc : c.name = "SKILL.md"
      · rw [if_pos hc] at hbc
        exact absurd hbc (by decide)
      · rw [if_neg hc] at hbc ⊢
        rw [localeCompare_nonpos_iff] at hab hbc ⊢
        exact cmpNatList_le_trans _ _ _ hab hbc

/-- C2 counterexample: the file sort is not a case-sensitive ordinal
sort.  For a directory holding `a.md`, `B.md` and `SKILL.md`, the output
places `a.md` before `B.md` (locale collation), although under the
claimed case-sensitive ordinal comparison `B.md` precedes `a.md`. -/
theorem scanSkillFiles_not_ordinal_counterexample :
    ((scanSkillFiles [("a.md", Tree.file []), ("B.md", Tree.file []),
          ("SKILL.md", Tree.file [])] "s").map FileRec.name
        = ["SKILL.md", "a.md", "B.md"])
    ∧ ¬ ordinalLe "a.md" "B.md" := by
  constructor
  · have hscan : scanDir "s" ""
        [("a.md", Tree.file []), ("B.md", Tree.file []), ("SKILL.md", Tree.file [])]
        = [mkFileRec "s" "" "a.md", mkFileRec "s" "" "B.md", mkFileRec "s" "" "SKILL.md"] := by
      simp [scanDir]
    rw [scanSkillFiles, hscan]
    decide
  · decide

/-- C2 amended: the output file sequence is sorted by the comparator's
non-strict order — descriptor file first, remaining files in ascending
name order under the locale-aware `localeCompare` collation rather than a
case-sensitive ordinal compare — and whenever the scanned directory holds
at most one file named `SKILL.md`, any such file is the head of the
output sequence. -/
theorem scanSkillFiles_order_amended (entries : List (String × Tree)) (skillName : String)
    (huniq : ((scanDir skillName "" entries).filter
        (fun f => f.name = "SKILL.md")).length ≤ 1) :
    (scanSkillFiles entries skillName).Sorted fileLe
    ∧ ∀ f ∈ scanSkillFiles entries skillName, f.name = "SKILL.md" →
        (scanSkillFiles entries skillName).head? = some f := by
  have htotal : IsTotal FileRec fileLe := ⟨fileLe_total⟩
  have htrans : IsTrans FileRec fileLe := ⟨fileLe_trans⟩
  refine ⟨@List.sorted_insertionSort _ fileLe _ htotal htrans _, ?_⟩
  intro f hf hfname
  have hsorted := @List.sorted_insertionSort _ fileLe _ htotal htrans (scanDir skillName "" entries)
  have hperm := List.perm_insertionSort fileLe (scanDir skillName "" entries)
  rcases hL : List.insertionSort fileLe (scanDir skillName "" entries) with _ | ⟨g, rest⟩
  · rw [scanSkillFiles, hL] at hf
    exact absurd hf (List.not_mem_nil f)
  · rw [scanSkillFiles, hL] at hf ⊢
    rw [hL] at hsorted hperm
    rcases List.mem_cons.mp hf with hfg | hfrest
    · rw [hfg]
      rfl
    · exfalso
      have hgf : fileLe g f := (List.sorted_cons.mp hsorted).1 f hfrest
      by_cases hg : g.name = "SKILL.md"
      · have hmemf : f ∈ rest.filter (fun f => f.name = "SKILL.md") :=
          List.mem_filter.mpr ⟨hfrest, by simp [hfname]⟩
        have hpos : 0 < (rest.filter (fun f => f.name = "SKILL.md")).length :=
          List.length_pos.mpr (fun hnil => by rw [hnil] at hmemf; exact List.not_mem_nil f hmemf)
        have hcons : ((g :: rest).filter (fun f => f.name = "SKILL.md")).length
            = (rest.filter (fun f => f.name = "SKILL.md")).length + 1 := by
          simp [List.filter_cons, hg]
        have hlen := (hperm.filter (fun f => decide (f.name = "SKILL.md"))).length_eq
        rw [hcons] at hlen
        omega
      · have hcmp : fileCmp g f = 1 := by
          rw [fileCmp, if_neg hg, if_pos hfname]
        rw [fileLe, hcmp] at hgf
        exact absurd hgf (by decide)

/-- Witness for the amended ordering theorem on the sample directory:
sorted output with the descriptor file at the head. -/
theorem scanSkillFiles_order_amended_witness :
    (scanSkillFiles demoFileTree "s").Sorted fileLe
    ∧ (scanSkillFiles demoFileTree "s").head? = some (mkFileRec "s" "" "SKILL.md") := by
  have hscan : scanDir "s" "" demoFileTree
      = [mkFileRec "s" "" "b.md", mkFileRec "s" "" "SKILL.md", mkFileRec "s" "" "a.md",
         mkFileRec "s" "sub" "z.txt"] := by
    simp [demoFileTree, scanDir, pathJoin]
  have h := scanSkillFiles_order_amended demoFileTree "s" (by rw [hscan]; decide)
  exact ⟨h.1, h.2 (mkFileRec "s" "" "SKILL.md")
    (by rw [scanSkillFiles, hscan]; decide) (by decide)⟩

/-! ### The packaging round trip -/

theorem addFilesToZip_eq_treeFiles : ∀ (l : List (String × Tree)) (rel : String),
    namesOkB l = true → addFilesToZip (slashed rel) l = treeFiles rel l
  | [], _, _ => by rw [addFilesToZip, treeFiles]
  | (n, Tree.dir sub) :: rest, rel, h => by
    rw [namesOkB, Bool.and_eq_true, Bool.and_eq_true] at h
    obtain ⟨⟨hn0, hsub⟩, hrest⟩ := h
    have hn : n ≠ "" := of_decide_eq_true hn0
    have hpre : slashed rel ++ n ++ "/" = slashed (pathJoin rel n) := by
      by_cases hrel : rel = ""
      · subst hrel
        rw [slashed, if_pos rfl, pathJoin, if_pos rfl, slashed, if_neg hn]
        simp
      · have hjoin : pathJoin rel n = rel ++ "/" ++ n := by rw [pathJoin, if_neg hrel]
        have hne : pathJoin rel n ≠ "" := by
          intro hemp
          have hlen := congrArg String.length hemp
          rw [hjoin, String.length_append, String.length_append] at hlen
          have hone : ("/" : String).length = 1 := by decide
          have hzero : ("" : String).length = 0 := by decide
          omega
        rw [slashed, if_neg hrel, slashed, if_neg hne, hjoin]
    rw [addFilesToZip, treeFiles, hpre,
      addFilesToZip_eq_treeFiles sub (pathJoin rel n) hsub,
      addFilesToZip_eq_treeFiles rest rel hrest]
  | (n, Tree.file c) :: rest, rel, h => by
    rw [namesOkB, Bool.and_eq_true] at h
    obtain ⟨_, hrest⟩ := h
    have hname : slashed rel ++ n = pathJoin rel n := by
      by_cases hrel : rel = ""
      · subst hrel
        rw [slashed, if_pos rfl, pathJoin, if_pos rfl]
        simp
      · rw [slashed, if_neg hrel, pathJoin, if_neg hrel]
    rw [addFilesToZip, treeFiles, hname, addFilesToZip_eq_treeFiles rest rel hrest]

/-- C8: packaging an entity's directory subtree and extracting the
resulting archive reproduces the original file set exactly — the same
relative paths, nesting preserved, and the same byte content of every
file. -/
theorem packSkill_roundtrip (entries : List (String × Tree))
    (h : namesOkB entries = true) :
    packSkillArchive entries = treeFiles "" entries := by
  have haux := addFilesToZip_eq_treeFiles entries "" h
  rw [packSkillArchive, ← haux, slashed, if_pos rfl]

/-- Witness for the round trip on the doubly nested sample directory,
with the archive contents spelled out. -/
theorem packSkill_roundtrip_witness :
    packSkillArchive demoZipTree = treeFiles "" demoZipTree
    ∧ packSkillArchive demoZipTree
        = [("SKILL.md", [35, 32]), ("docs/guide.md", [1, 2, 3]),
           ("docs/deep/x.txt", [9]), ("run.sh", [])] :=
  ⟨packSkill_roundtrip demoZipTree (by simp [demoZipTree, namesOkB]),
   by simp [demoZipTree, packSkillArchive, addFilesToZip]⟩

end SyncSkills
